import Mathlib

/-!
# Blackblog: discovery walk, root-path prefix and the driver

A shallow embedding of `src/blackblog.go`:

* `getRootPath`, with the two library functions it calls (`strings.Count`,
  `strings.Repeat`);
* `GetPostsInDirectory`, as the callback it hands to `filepath.Walk` run over the
  sequence of callback invocations the walk makes;
* `main`, as a run over the results of its collaborators that records every
  collaborator call and the process exit status.

Go strings are modelled by `String`; the separators and suffixes the code looks
for are ASCII, so counting and suffix tests on characters agree with Go's on bytes.
-/

namespace Blackblog

/-! ## Library functions from package `strings` -/

/-- Non-overlapping occurrences of the non-empty `sep` in a character list, scanning
left to right; `skip` is the number of characters still covered by the last match. -/
def countFrom (sep : List Char) : Nat → List Char → Nat
  | _, [] => 0
  | skip + 1, _ :: cs => countFrom sep skip cs
  | 0, c :: cs =>
    if sep.isPrefixOf (c :: cs) then 1 + countFrom sep (sep.length - 1) cs
    else countFrom sep 0 cs

/-- Go `strings.Count(s, substr)`: the number of non-overlapping instances of `substr`
in `s`; for an empty `substr` it is one more than the number of code points of `s`. -/
def Count (s substr : String) : Nat :=
  if substr.data = [] then s.data.length + 1 else countFrom substr.data 0 s.data

/-- Go `strings.Repeat(s, count)` for a non-negative `count`: `count` copies of `s`.
Strings are unbounded here, so the panic of `Repeat` on a result longer than the `int`
range has no counterpart. -/
def Repeat (s : String) : Nat → String
  | 0 => ""
  | n + 1 => s ++ Repeat s n

/-- Go `strings.HasSuffix(s, suffix)`:
`len(s) >= len(suffix) && s[len(s)-len(suffix):] == suffix`. -/
def HasSuffix (s suffix : String) : Bool :=
  decide (suffix.data.length ≤ s.data.length) &&
    decide (s.data.drop (s.data.length - suffix.data.length) = suffix.data)

/-! ## `getRootPath` -/

/-- Source `getRootPath` (blackblog.go:129-131). -/
def getRootPath (name : String) : String :=
  Repeat "../" (Count name "/")

/-! ## Library functions from package `path`

`getRootPath` produces a relative prefix; what that prefix resolves to is read off
the lexical normalisation of slash-separated paths, Go `path.Clean`, which `main`
also reaches through `path.Join`. -/

/-- Go `strings.LastIndexByte(s, c)` on a character list: the index of the last `c`,
or `-1` when there is none. -/
def LastIndexByte : List Char → Char → Int
  | [], _ => -1
  | x :: xs, c =>
    if 0 ≤ LastIndexByte xs c then LastIndexByte xs c + 1
    else if x = c then 0 else -1

/-- Go `path.Split(path)`: `i := LastIndex(path, "/"); return path[:i+1], path[i+1:]`.
The first component is the directory part, ending in its slash (empty when the path
has no slash). -/
def Split (path : String) : String × String :=
  let i := LastIndexByte path.data '/'
  (⟨path.data.take (i + 1).toNat⟩, ⟨path.data.drop (i + 1).toNat⟩)

/-- One path element arriving at the stack of elements kept so far (innermost first):
empty and `.` elements are dropped, `..` removes the element before it, unless there
is none or it is itself `..`, in which case `..` is kept in a relative path and
dropped in a rooted one. -/
def pushElem (rooted : Bool) (stack : List (List Char)) (elem : List Char) :
    List (List Char) :=
  if elem = [] ∨ elem = ['.'] then stack
  else if elem = ['.', '.'] then
    match stack with
    | [] => if rooted then [] else [elem]
    | top :: below => if top = ['.', '.'] then elem :: stack else below
  else elem :: stack

/-- The scan of `path.Clean`: `cur` is the element being read (reversed), `stack` the
elements kept so far; a slash or the end of the path closes the current element. -/
def cleanScan (rooted : Bool) : List (List Char) → List Char → List Char → List (List Char)
  | stack, cur, [] => pushElem rooted stack cur.reverse
  | stack, cur, c :: cs =>
    if c = '/' then cleanScan rooted (pushElem rooted stack cur.reverse) [] cs
    else cleanScan rooted stack (c :: cur) cs

/-- Go `path.Clean(path)`: the shortest path equivalent to `path` by purely lexical
processing; `.` for an empty result, a single leading slash kept for a rooted path. -/
def Clean (path : String) : String :=
  let rooted := path.data.head? = some '/'
  let out := ['/'].intercalate (cleanScan rooted [] [] path.data).reverse
  if rooted then ⟨'/' :: out⟩ else if out = [] then "." else ⟨out⟩

/-- Go `path.Join(a, b)`: the non-empty elements joined by a slash, then cleaned; the
empty string when both are empty. -/
def pathJoin (a b : String) : String :=
  if a = "" ∧ b = "" then ""
  else if a = "" then Clean b
  else if b = "" then Clean a
  else Clean (a ++ "/" ++ b)

/-- Go `strings.Join(elems, "/")`: the elements with a slash between neighbours. -/
def joinSlash : List String → String
  | [] => ""
  | [s] => s
  | s :: t :: rest => s ++ "/" ++ joinSlash (t :: rest)

/-- A path element that stays on the stack: not empty, without a slash, neither `.`
nor `..`. -/
def plainElem (elem : List Char) : Prop :=
  elem ≠ [] ∧ '/' ∉ elem ∧ elem ≠ ['.'] ∧ elem ≠ ['.', '.']

/-- The characters of a directory part: each element followed by a slash. -/
def dirChars (elems : List (List Char)) : List Char :=
  (elems.map fun el => el ++ ['/']).flatten

/-! ## `GetPostsInDirectory`

`filepath.Walk(dirPath, fn)` calls `fn(file, info, err)` once per visit, in lexical
depth-first order.  A call that returns `filepath.SkipDir` makes the walk leave out
the rest of the directory the visit belongs to (for a directory: what lies below it)
and go on; `filepath.SkipAll` ends the walk; in both cases `Walk` returns nil.  Any
other non-nil error ends the walk and is returned.  The file system is abstracted to
the sequence of visits the walk makes while every call returns nil, each with its
depth below the root.  The document loader `NewPostFromPath` is defined outside the
two source files and is a parameter. -/

/-- A Go `error` value as `filepath.Walk` tells them apart: its two control values and
every other error. -/
inductive GoError (Err : Type) where
  | SkipDir
  | SkipAll
  | other (e : Err)
  deriving DecidableEq, Repr

/-- The part of `os.FileInfo` the callback reads. -/
structure FileInfo where
  isDir : Bool
  deriving DecidableEq, Repr

/-- One invocation of the walk callback: `fn(file, info, err)`.  `info` is `none`
for a nil `os.FileInfo`, `err` is `none` for a nil error; `depth` is the number of
directories between the root of the walk (depth 0) and the entry. -/
structure WalkEvent (Err : Type) where
  file : String
  info : Option FileInfo
  err : Option Err
  depth : Nat
  deriving DecidableEq, Repr

/-- An entry of the tree the walk could stat: its path, whether it is a directory,
and its depth below the root. -/
structure Entry where
  path : String
  isDir : Bool
  depth : Nat
  deriving DecidableEq, Repr

/-- The visit of an entry the walk could stat, with a nil error argument. -/
def visit {Err : Type} (entry : Entry) : WalkEvent Err :=
  ⟨entry.path, some ⟨entry.isDir⟩, none, entry.depth⟩

/-- A computation that either returns or faults with a run-time panic. -/
inductive Outcome (α : Type) where
  | ok (a : α)
  | panic
  deriving DecidableEq, Repr

/-- The variables the callback closes over: the named result `posts`, and (ghost)
the paths `NewPostFromPath` has been called with, oldest first. -/
structure WalkState (Post : Type) where
  posts : List Post
  loaded : List String
  deriving DecidableEq, Repr

/-- The callback of `GetPostsInDirectory` (blackblog.go:116-125).  `info.IsDir()` on
a nil `info` is a nil dereference; the `err` argument is never read. -/
def walkFn {Post Err : Type} (NewPostFromPath : String → Option Post × Option Err)
    (st : WalkState Post) (ev : WalkEvent Err) : Outcome (WalkState Post × Option Err) :=
  match ev.info with
  | none => .panic
  | some info =>
    if !info.isDir && HasSuffix ev.file ".md" then
      match NewPostFromPath ev.file with
      | (some post, none) =>
        .ok (⟨st.posts ++ [post], st.loaded ++ [ev.file]⟩, none)
      | (_, err) => .ok (⟨st.posts, st.loaded ++ [ev.file]⟩, err)
    else .ok (st, none)

/-- The depth from which visits are left out once the callback has returned `SkipDir`
on a visit: a file closes the rest of its directory (its own depth and deeper); a
directory, or an entry without file info, closes only what lies below it. -/
def skipFrom {Err : Type} (ev : WalkEvent Err) : Nat :=
  match ev.info with
  | some ⟨false⟩ => ev.depth
  | _ => ev.depth + 1

/-- Whether a visit at `depth` is left out: a `SkipDir` is in force from depth `d` and
the visit is not above it. -/
def skipped : Option Nat → Nat → Bool
  | some d, depth => decide (d ≤ depth)
  | none, _ => false

/-- The part of `filepath.Walk` the caller observes.  The callback runs on the visits
in order; `skip` is the depth a `SkipDir` is in force from, lifted by the first visit
above it.  `SkipAll` ends the walk with a nil result, any other non-nil error ends it
and is the result. -/
def Walk {σ Err : Type}
    (fn : σ → WalkEvent (GoError Err) → Outcome (σ × Option (GoError Err))) :
    Option Nat → σ → List (WalkEvent (GoError Err)) → Outcome (σ × Option (GoError Err))
  | _, st, [] => .ok (st, none)
  | skip, st, ev :: rest =>
    if skipped skip ev.depth then Walk fn skip st rest
    else
      match fn st ev with
      | .panic => .panic
      | .ok (st', none) => Walk fn none st' rest
      | .ok (st', some .SkipDir) => Walk fn (some (skipFrom ev)) st' rest
      | .ok (st', some .SkipAll) => .ok (st', none)
      | .ok (st', some (.other e)) => .ok (st', some (.other e))

/-- The results of `GetPostsInDirectory`: the named results `posts` and `err`, and
(ghost) the paths the loader was called with. -/
structure Discovery (Post Err : Type) where
  posts : List Post
  err : Option Err
  loaded : List String
  deriving DecidableEq, Repr

/-- Source `GetPostsInDirectory` (blackblog.go:115-127), on the visits the walk of
`dirPath` makes: `posts` starts nil, the walk's result is assigned to `err`, and the
bare `return` hands back both. -/
def GetPostsInDirectory {Post Err : Type}
    (NewPostFromPath : String → Option Post × Option (GoError Err))
    (visits : List (WalkEvent (GoError Err))) : Outcome (Discovery Post (GoError Err)) :=
  match Walk (walkFn NewPostFromPath) none ⟨[], []⟩ visits with
  | .panic => .panic
  | .ok (st, err) => .ok ⟨st.posts, err, st.loaded⟩

/-- An entry the callback loads: not a directory, path ending in `.md`. -/
def selected (entry : Entry) : Bool :=
  !entry.isDir && HasSuffix entry.path ".md"

/-- The posts the loader yields on the selected entries of a list, in order: one per
selected entry on which it returns a non-nil post. -/
def postsOf {Post Err : Type} (NewPostFromPath : String → Option Post × Option Err)
    (entries : List Entry) : List Post :=
  (entries.filter selected).filterMap fun x => (NewPostFromPath x.path).1

/-- The paths of the selected entries of a list, in order. -/
def pathsOf (entries : List Entry) : List String :=
  (entries.filter selected).map fun x => x.path

/-! ## `main`

`main` is run over the results of its collaborators, after `flag.Parse` has
succeeded.  The functions `RunAsServer`, `StartBlogServer`, `createRenderTree`,
`writeRenderTree` and `CreateIndex` are defined outside the two source files and are
parameters, as are the file system calls.  A run records every collaborator call in
order and how the process ends. -/

/-- What a call of `StartBlogServer` does: serve forever, or return an error value. -/
inductive ServerResult (Err : Type) where
  | blocks
  | returned (err : Option Err)
  deriving DecidableEq, Repr

/-- The inputs of one run of `main`. -/
structure Env (Post Err Tree Index : Type) where
  /-- The positional arguments, `flag.Args()`. -/
  args : List String
  /-- The value of `-root`, `*flagSource`. -/
  flagSource : String
  /-- The value of `-dest`, `*flagDest`. -/
  flagDest : String
  RunAsServer : Bool
  StartBlogServer : String → ServerResult Err
  /-- The visits `filepath.Walk` makes on a directory. -/
  visits : String → List (WalkEvent Err)
  NewPostFromPath : String → Option Post × Option Err
  createRenderTree : List Post → Tree × Option Err
  writeRenderTree : String → Tree → Option Err
  CreateIndex : List Post → Index × Option Err
  /-- The error of `os.Create` on a path, `none` when the file was created. -/
  osCreate : String → Option Err

/-- A step of `main` seen from outside. -/
inductive Call (Post Err Tree Index : Type) where
  | usage
  | stderr (msg : String) (err : Option Err)
  | StartBlogServer (source : String)
  | GetPostsInDirectory (source : String)
  | createRenderTree (posts : List Post)
  | writeRenderTree (dest : String) (tree : Tree)
  | CreateIndex (posts : List Post)
  | osCreate (path : String)
  | fileWrite (path : String) (index : Index)
  | fileClose (path : String)
  deriving DecidableEq, Repr

/-- The calls that produce output: writing the tree, building the index, creating
and filling `index.html`. -/
def Call.isOutput {Post Err Tree Index : Type} : Call Post Err Tree Index → Bool
  | .writeRenderTree _ _ => true
  | .CreateIndex _ => true
  | .osCreate _ => true
  | .fileWrite _ _ => true
  | .fileClose _ => true
  | _ => false

/-- How a run ends: `os.Exit(code)` (a normal return is code 0), a run-time panic, or
never, inside a server that keeps serving. -/
inductive Ending where
  | exit (code : Nat)
  | crashed
  | serving
  deriving DecidableEq, Repr

/-- A run of `main`: the calls made, in order, and the ending. -/
structure Run (Post Err Tree Index : Type) where
  calls : List (Call Post Err Tree Index)
  ending : Ending
  deriving DecidableEq, Repr

/-- Lines 73-100 of `main`: discovery, tree construction, tree writing, index. -/
def pipeline {Post Err Tree Index : Type} (e : Env Post (GoError Err) Tree Index) :
    Run Post (GoError Err) Tree Index :=
  match GetPostsInDirectory e.NewPostFromPath (e.visits e.flagSource) with
  | .panic => ⟨[.GetPostsInDirectory e.flagSource], .crashed⟩
  | .ok ⟨_, some err, _⟩ =>
    ⟨[.GetPostsInDirectory e.flagSource, .stderr "GetPostsInDirectory: " (some err)],
      .exit 3⟩
  | .ok ⟨posts, none, _⟩ =>
    match e.createRenderTree posts with
    | (_, some err) =>
      ⟨[.GetPostsInDirectory e.flagSource, .createRenderTree posts,
        .stderr "createRenderTree: " (some err)], .exit 3⟩
    | (renderTree, none) =>
      match e.writeRenderTree e.flagDest renderTree with
      | some err =>
        ⟨[.GetPostsInDirectory e.flagSource, .createRenderTree posts,
          .writeRenderTree e.flagDest renderTree,
          .stderr "writeRenderTree: " (some err)], .exit 3⟩
      | none =>
        match e.CreateIndex posts with
        | (_, some err) =>
          ⟨[.GetPostsInDirectory e.flagSource, .createRenderTree posts,
            .writeRenderTree e.flagDest renderTree, .CreateIndex posts,
            .stderr "writing index: " (some err)], .exit 3⟩
        | (index, none) =>
          match e.osCreate (pathJoin e.flagDest "index.html") with
          | some err =>
            ⟨[.GetPostsInDirectory e.flagSource, .createRenderTree posts,
              .writeRenderTree e.flagDest renderTree, .CreateIndex posts,
              .osCreate (pathJoin e.flagDest "index.html"),
              .stderr "writing index: " (some err)], .exit 3⟩
          | none =>
            ⟨[.GetPostsInDirectory e.flagSource, .createRenderTree posts,
              .writeRenderTree e.flagDest renderTree, .CreateIndex posts,
              .osCreate (pathJoin e.flagDest "index.html"),
              .fileWrite (pathJoin e.flagDest "index.html") index,
              .fileClose (pathJoin e.flagDest "index.html")], .exit 0⟩

/-- Source `main` (blackblog.go:46-101). -/
def main {Post Err Tree Index : Type} (e : Env Post (GoError Err) Tree Index) :
    Run Post (GoError Err) Tree Index :=
  if e.args.length ≠ 1 then ⟨[.usage], .exit 1⟩
  else if e.flagSource = "" then
    ⟨[.stderr "No -root blog directory specified\n" none], .exit 1⟩
  else if !e.RunAsServer && e.flagDest = "" then
    ⟨[.stderr "No -port or -dest flag specified\n" none], .exit 2⟩
  else if e.RunAsServer then
    match e.StartBlogServer e.flagSource with
    | .blocks => ⟨[.StartBlogServer e.flagSource], .serving⟩
    | .returned (some err) =>
      ⟨[.StartBlogServer e.flagSource, .stderr "Could not start blog server:" (some err)],
        .exit 3⟩
    | .returned none =>
      ⟨.StartBlogServer e.flagSource :: (pipeline e).calls, (pipeline e).ending⟩
  else pipeline e

/-- The guards of `main` passed: one positional argument, a `-root`, and either a
`-dest` outside server mode or a server whose start-up call returned without error. -/
def reachesPipeline {Post Err Tree Index : Type} (e : Env Post Err Tree Index) : Prop :=
  e.args.length = 1 ∧ e.flagSource ≠ "" ∧
    ((e.RunAsServer = false ∧ e.flagDest ≠ "") ∨
      (e.RunAsServer = true ∧ e.StartBlogServer e.flagSource = .returned none))

/-- A run environment for evaluating `main`: the command `render` on a root that
holds `a.md`, with collaborators that all succeed. -/
def sampleEnv : Env String (GoError Nat) String String where
  args := ["render"]
  flagSource := "blog"
  flagDest := "out"
  RunAsServer := false
  StartBlogServer := fun _ => .blocks
  visits := fun _ => [visit ⟨"blog", true, 0⟩, visit ⟨"blog/a.md", false, 1⟩]
  NewPostFromPath := fun p => (some p, none)
  createRenderTree := fun posts => (String.join posts, none)
  writeRenderTree := fun _ _ => none
  CreateIndex := fun posts => (String.join posts, none)
  osCreate := fun _ => none

/-! ## Lemmas on the string functions -/

theorem countFrom_slash (l : List Char) : countFrom ['/'] 0 l = l.count '/' := by
  induction l with
  | nil => rfl
  | cons c cs ih =>
    by_cases h : c = '/'
    · subst h
      simp [countFrom, ih, Nat.add_comm]
    · have h2 : ¬ ('/' = c) := fun e => h e.symm
      simp [countFrom, ih, List.count_cons, h, h2]

theorem Count_slash (name : String) : Count name "/" = name.data.count '/' := by
  have h : ("/" : String).data = ['/'] := rfl
  simp [Count, h, countFrom_slash]

theorem Repeat_eq_join (s : String) (n : Nat) :
    Repeat s n = String.join (List.replicate n s) := by
  induction n with
  | zero => rfl
  | succ n ih =>
    apply String.ext
    simp [Repeat, ih, List.replicate_succ, String.data_join]

/-! ## Lemmas on the walk -/

theorem postsOf_append {Post Err : Type} (ld : String → Option Post × Option Err)
    (xs ys : List Entry) : postsOf ld (xs ++ ys) = postsOf ld xs ++ postsOf ld ys := by
  simp [postsOf]

theorem pathsOf_append (xs ys : List Entry) :
    pathsOf (xs ++ ys) = pathsOf xs ++ pathsOf ys := by
  simp [pathsOf]

/-- The callback on an entry that is not selected: nothing happens. -/
theorem walkFn_skip {Post Err : Type} (ld : String → Option Post × Option Err)
    (st : WalkState Post) (x : Entry) (h : selected x = false) :
    walkFn ld st (visit x) = .ok (st, none) := by
  have h2 : (!x.isDir && HasSuffix x.path ".md") = false := h
  simp [walkFn, visit, h2]

/-- The callback on a selected entry the loader does not fail on. -/
theorem walkFn_load {Post Err : Type} (ld : String → Option Post × Option Err)
    (st : WalkState Post) (x : Entry) (h : selected x = true)
    (hok : (ld x.path).2 = none) :
    walkFn ld st (visit x) =
      .ok (⟨st.posts ++ (ld x.path).1.toList, st.loaded ++ [x.path]⟩, none) := by
  have h2 : (!x.isDir && HasSuffix x.path ".md") = true := h
  rcases hld : ld x.path with ⟨post, err⟩
  rw [hld] at hok
  simp only at hok
  subst hok
  cases post <;> simp [walkFn, visit, h2, hld]

/-- The callback on a selected entry the loader returns a non-nil error on. -/
theorem walkFn_fail {Post Err : Type} (ld : String → Option Post × Option Err)
    (st : WalkState Post) (x : Entry) (e : Err) (h : selected x = true)
    (herr : (ld x.path).2 = some e) :
    walkFn ld st (visit x) = .ok (⟨st.posts, st.loaded ++ [x.path]⟩, some e) := by
  have h2 : (!x.isDir && HasSuffix x.path ".md") = true := h
  rcases hld : ld x.path with ⟨post, err⟩
  rw [hld] at herr
  simp only at herr
  subst herr
  cases post <;> simp [walkFn, visit, h2, hld]

/-- A walk on which no load returns an error runs to the end. -/
theorem Walk_all_loaded {Post Err : Type}
    (ld : String → Option Post × Option (GoError Err)) (entries : List Entry)
    (hok : ∀ x ∈ entries, selected x = true → (ld x.path).2 = none) (st : WalkState Post) :
    Walk (walkFn ld) none st (entries.map visit) =
      .ok (⟨st.posts ++ postsOf ld entries, st.loaded ++ pathsOf entries⟩, none) := by
  induction entries generalizing st with
  | nil => simp [Walk, postsOf, pathsOf]
  | cons x rest ih =>
    have hrest : ∀ y ∈ rest, selected y = true → (ld y.path).2 = none :=
      fun y hy => hok y (List.mem_cons_of_mem _ hy)
    cases hx : selected x with
    | false =>
      simp only [List.map_cons, Walk, skipped, walkFn_skip ld st x hx, ih hrest]
      simp [postsOf, pathsOf, hx]
    | true =>
      have hl := hok x (List.mem_cons_self _ _) hx
      simp only [List.map_cons, Walk, skipped, walkFn_load ld st x hx hl, ih hrest]
      cases hp : (ld x.path).1 <;> simp [postsOf, pathsOf, hx, hp]

/-- A walk stops at the first selected entry the loader fails on with an error that
is not a control value. -/
theorem Walk_first_failure {Post Err : Type}
    (ld : String → Option Post × Option (GoError Err))
    (pre : List Entry) (x : Entry) (suf : List Entry) (e : Err)
    (hpre : ∀ y ∈ pre, selected y = true → (ld y.path).2 = none)
    (hx : selected x = true) (herr : (ld x.path).2 = some (.other e)) (st : WalkState Post) :
    Walk (walkFn ld) none st ((pre ++ x :: suf).map visit) =
      .ok (⟨st.posts ++ postsOf ld pre, st.loaded ++ pathsOf pre ++ [x.path]⟩,
        some (.other e)) := by
  induction pre generalizing st with
  | nil => simp [Walk, skipped, walkFn_fail ld st x (.other e) hx herr, postsOf, pathsOf]
  | cons y rest ih =>
    have hrest : ∀ z ∈ rest, selected z = true → (ld z.path).2 = none :=
      fun z hz => hpre z (List.mem_cons_of_mem _ hz)
    rw [List.cons_append, List.map_cons]
    cases hy : selected y with
    | false =>
      simp only [Walk, skipped, walkFn_skip ld st y hy, ih hrest]
      simp [postsOf, pathsOf, hy]
    | true =>
      have hl := hpre y (List.mem_cons_self _ _) hy
      simp only [Walk, skipped, walkFn_load ld st y hy hl, ih hrest]
      cases hp : (ld y.path).1 <;> simp [postsOf, pathsOf, hy, hp]

/-- Every list of entries either loads without error or splits at the first selected
entry on which the loader returns one. -/
theorem first_failure_split {Post Err : Type} (ld : String → Option Post × Option Err)
    (entries : List Entry) :
    (∀ x ∈ entries, selected x = true → (ld x.path).2 = none) ∨
    ∃ pre x suf e, entries = pre ++ x :: suf ∧
      (∀ y ∈ pre, selected y = true → (ld y.path).2 = none) ∧
      selected x = true ∧ (ld x.path).2 = some e := by
  induction entries with
  | nil => left; simp
  | cons x rest ih =>
    by_cases hx : selected x = true ∧ ∃ e, (ld x.path).2 = some e
    · obtain ⟨hs, e, he⟩ := hx
      exact Or.inr ⟨[], x, rest, e, rfl, by simp, hs, he⟩
    · have hxok : selected x = true → (ld x.path).2 = none := by
        intro hs
        cases h : (ld x.path).2 with
        | none => rfl
        | some e => exact absurd ⟨hs, e, h⟩ hx
      rcases ih with hall | ⟨pre, y, suf, e, heq, hpre, hy, he⟩
      · left
        intro z hz
        rcases List.mem_cons.1 hz with rfl | hz
        · exact hxok
        · exact hall z hz
      · right
        refine ⟨x :: pre, y, suf, e, by simp [heq], ?_, hy, he⟩
        intro z hz
        rcases List.mem_cons.1 hz with rfl | hz
        · exact hxok
        · exact hpre z hz

/-- A walk that ends with an error ended at a selected entry on which the loader
returned that error, reached by the walk of the entries before it. -/
theorem Walk_error_split {Post Err : Type}
    (ld : String → Option Post × Option (GoError Err)) (entries : List Entry)
    (skip : Option Nat) (st stf : WalkState Post) (e : GoError Err)
    (h : Walk (walkFn ld) skip st (entries.map visit) = .ok (stf, some e)) :
    ∃ pre x suf st', entries = pre ++ x :: suf ∧ selected x = true ∧
      (ld x.path).2 = some e ∧
      Walk (walkFn ld) skip st (pre.map visit) = .ok (st', none) ∧
      stf = ⟨st'.posts, st'.loaded ++ [x.path]⟩ := by
  induction entries generalizing skip st with
  | nil => simp [Walk] at h
  | cons y rest ih =>
    rw [List.map_cons] at h
    have step : ∀ skip2 st2,
        (∀ pre : List Entry, Walk (walkFn ld) skip st ((y :: pre).map visit) =
          Walk (walkFn ld) skip2 st2 (pre.map visit)) →
        Walk (walkFn ld) skip2 st2 (rest.map visit) = .ok (stf, some e) →
        ∃ pre x suf st', y :: rest = pre ++ x :: suf ∧ selected x = true ∧
          (ld x.path).2 = some e ∧
          Walk (walkFn ld) skip st (pre.map visit) = .ok (st', none) ∧
          stf = ⟨st'.posts, st'.loaded ++ [x.path]⟩ := by
      intro skip2 st2 hcut hrest
      obtain ⟨pre, x, suf, st', heq, hx, hxe, hw, hst⟩ := ih skip2 st2 hrest
      exact ⟨y :: pre, x, suf, st', by simp [heq], hx, hxe, (hcut pre).trans hw, hst⟩
    cases hs : skipped skip (visit y : WalkEvent (GoError Err)).depth with
    | true =>
      apply step skip st
      · intro pre; simp only [List.map_cons, Walk, hs, if_true]
      · simpa only [Walk, hs, if_true] using h
    | false =>
      cases hy : selected y with
      | false =>
        apply step none st
        · intro pre
          simp only [List.map_cons, Walk, hs, walkFn_skip ld st y hy, Bool.false_eq_true,
            if_false]
        · simpa only [Walk, hs, walkFn_skip ld st y hy, Bool.false_eq_true, if_false] using h
      | true =>
        cases hl : (ld y.path).2 with
        | none =>
          apply step none ⟨st.posts ++ (ld y.path).1.toList, st.loaded ++ [y.path]⟩
          · intro pre
            simp only [List.map_cons, Walk, hs, walkFn_load ld st y hy hl, Bool.false_eq_true,
              if_false]
          · simpa only [Walk, hs, walkFn_load ld st y hy hl, Bool.false_eq_true, if_false]
              using h
        | some g =>
          have hf := walkFn_fail ld st y g hy hl
          cases g with
          | SkipDir =>
            apply step (some (skipFrom (visit y : WalkEvent (GoError Err))))
              ⟨st.posts, st.loaded ++ [y.path]⟩
            · intro pre
              simp only [List.map_cons, Walk, hs, hf, Bool.false_eq_true, if_false]
            · simpa only [Walk, hs, hf, Bool.false_eq_true, if_false] using h
          | SkipAll =>
            simp only [Walk, hs, hf, Bool.false_eq_true, if_false] at h
            simp at h
          | other e' =>
            simp only [Walk, hs, hf, Bool.false_eq_true, if_false, Outcome.ok.injEq,
              Prod.mk.injEq, Option.some.injEq] at h
            obtain ⟨hst, he⟩ := h
            subst he
            exact ⟨[], y, rest, st, rfl, hy, hl, by simp [Walk], hst.symm⟩

/-- C1: for every name, `getRootPath name` is `"../"` repeated `d` times, `d` being
the number of `/` characters of `name`; so it is empty when `name` has no `/`, and
the three documents of the end-to-end scenario get `""`, `"../"` and `"../../"`. -/
theorem getRootPath_eq_replicate :
    (∀ name : String,
      getRootPath name = String.join (List.replicate (name.data.count '/') "../")) ∧
    String.join (List.replicate 0 "../") = "" ∧
    getRootPath "a.md" = "" ∧ getRootPath "sub/b.md" = "../" ∧
    getRootPath "sub/deep/c.md" = "../../" := by
  refine ⟨fun name => ?_, rfl, by decide, by decide, by decide⟩
  simp [getRootPath, Count_slash, Repeat_eq_join]

/-! ## Discovery -/

/-- C2: on a walk given by its visited entries, with a loader that returns a non-nil
post and no error on every path, `GetPostsInDirectory` returns a nil error and exactly
the loader's posts for the entries that are not directories and end in `.md`, in walk
order; a directory named `d.md` and a file `a.txt` contribute nothing, and the number
of posts is the number of selected entries. -/
theorem GetPostsInDirectory_selects {Post Err : Type} (post : String → Post)
    (entries : List Entry) :
    GetPostsInDirectory (fun p => (some (post p), (none : Option (GoError Err))))
        (entries.map visit) =
      .ok ⟨(entries.filter fun x => !x.isDir && HasSuffix x.path ".md").map
        fun x => post x.path, none, pathsOf entries⟩ ∧
    ((entries.filter fun x => !x.isDir && HasSuffix x.path ".md").map
        fun x => post x.path).length =
      entries.countP (fun x => !x.isDir && HasSuffix x.path ".md") ∧
    GetPostsInDirectory (fun p => (some (post p), (none : Option (GoError Err))))
      ([Entry.mk "r" true 0, Entry.mk "r/a.txt" false 1, Entry.mk "r/d.md" true 1,
        Entry.mk "r/d.md/a.md" false 2].map visit) =
      .ok ⟨[post "r/d.md/a.md"], none, ["r/d.md/a.md"]⟩ := by
  refine ⟨?_, ?_, ?_⟩
  · have h := Walk_all_loaded (fun p => (some (post p), (none : Option (GoError Err)))) entries
      (fun _ _ _ => rfl) ⟨[], []⟩
    simp only [GetPostsInDirectory, h]
    have hf : (fun x : Entry => some (post x.path)) = some ∘ fun x => post x.path := rfl
    simp only [postsOf, List.nil_append, hf, List.filterMap_eq_map]
    rfl
  · simp [List.countP_eq_length_filter]
  · have h := Walk_all_loaded (fun p => (some (post p), (none : Option (GoError Err))))
      [Entry.mk "r" true 0, Entry.mk "r/a.txt" false 1, Entry.mk "r/d.md" true 1,
        Entry.mk "r/d.md/a.md" false 2]
      (fun _ _ _ => rfl) ⟨[], []⟩
    simp only [GetPostsInDirectory, h]
    have h0 : selected (Entry.mk "r" true 0) = false := by decide
    have h1 : selected (Entry.mk "r/a.txt" false 1) = false := by decide
    have h2 : selected (Entry.mk "r/d.md" true 1) = false := by decide
    have h3 : selected (Entry.mk "r/d.md/a.md" false 2) = true := by decide
    simp [postsOf, pathsOf, List.filter, h0, h1, h2, h3]

/-- C3, as stated, fails for the walk's control values.  In the walk `r`, `r/a`,
`r/a/1.md`, `r/a/2.md`, `r/a/3.md`, `r/b`, `r/b/3.md` a loader that returns
`filepath.SkipDir` on `r/a/2.md` makes the callback return it, but the walk only leaves
out `r/a/3.md`, the loader is still called on `r/b/3.md`, and `GetPostsInDirectory`
returns a nil error; with `filepath.SkipAll` the walk ends and the error is nil too. -/
theorem GetPostsInDirectory_control_error_dropped :
    selected (Entry.mk "r/a/2.md" false 2) = true ∧
    (∀ st : WalkState String,
      walkFn (fun p => if p = "r/a/2.md" then (none, some (GoError.SkipDir : GoError Nat))
          else (some p, none)) st (visit (Entry.mk "r/a/2.md" false 2)) =
        .ok (⟨st.posts, st.loaded ++ ["r/a/2.md"]⟩, some .SkipDir)) ∧
    GetPostsInDirectory
      (fun p => if p = "r/a/2.md" then (none, some (GoError.SkipDir : GoError Nat))
        else (some p, none))
      ([Entry.mk "r" true 0, Entry.mk "r/a" true 1, Entry.mk "r/a/1.md" false 2,
        Entry.mk "r/a/2.md" false 2, Entry.mk "r/a/3.md" false 2, Entry.mk "r/b" true 1,
        Entry.mk "r/b/3.md" false 2].map visit) =
      .ok ⟨["r/a/1.md", "r/b/3.md"], none, ["r/a/1.md", "r/a/2.md", "r/b/3.md"]⟩ ∧
    GetPostsInDirectory
      (fun p => if p = "r/a/2.md" then (none, some (GoError.SkipAll : GoError Nat))
        else (some p, none))
      ([Entry.mk "r" true 0, Entry.mk "r/a" true 1, Entry.mk "r/a/1.md" false 2,
        Entry.mk "r/a/2.md" false 2, Entry.mk "r/a/3.md" false 2, Entry.mk "r/b" true 1,
        Entry.mk "r/b/3.md" false 2].map visit) =
      .ok ⟨["r/a/1.md"], none, ["r/a/1.md", "r/a/2.md"]⟩ := by
  refine ⟨by decide, fun st => ?_, by decide, by decide⟩
  exact walkFn_fail
    (fun p => if p = "r/a/2.md" then (none, some (GoError.SkipDir : GoError Nat))
      else (some p, none)) st (Entry.mk "r/a/2.md" false 2) .SkipDir (by decide) (by decide)

/-- C3, amended: when the loader returns a non-nil error `e` that is neither
`filepath.SkipDir` nor `filepath.SkipAll` on a selected entry, with or without a post,
and no error on the selected entries before it, the callback returns `e` on that
entry without appending a post, the loader is called on no later entry, and
`GetPostsInDirectory` returns `e` as its error. -/
theorem GetPostsInDirectory_first_error {Post Err : Type}
    (NewPostFromPath : String → Option Post × Option (GoError Err))
    (pre : List Entry) (x : Entry) (suf : List Entry) (e : Err)
    (hpre : ∀ y ∈ pre, selected y = true → (NewPostFromPath y.path).2 = none)
    (hx : selected x = true) (herr : (NewPostFromPath x.path).2 = some (.other e)) :
    (∀ st : WalkState Post, walkFn NewPostFromPath st (visit x) =
      .ok (⟨st.posts, st.loaded ++ [x.path]⟩, some (.other e))) ∧
    GetPostsInDirectory NewPostFromPath ((pre ++ x :: suf).map visit) =
      .ok ⟨postsOf NewPostFromPath pre, some (.other e), pathsOf pre ++ [x.path]⟩ := by
  refine ⟨fun st => walkFn_fail NewPostFromPath st x (.other e) hx herr, ?_⟩
  have h := Walk_first_failure NewPostFromPath pre x suf e hpre hx herr ⟨[], []⟩
  simp only [GetPostsInDirectory, h, List.nil_append]

/-- C3, amended, at the walk `r`, `r/a.md`, `r/b.md`, `r/c.md` whose loader fails on
`r/b.md` while also returning a post. -/
theorem GetPostsInDirectory_first_error_witness :
    (∀ y ∈ ([Entry.mk "r" true 0, Entry.mk "r/a.md" false 1] : List Entry), selected y = true →
      ((fun p => if p = "r/b.md" then (some p, some (GoError.other 7))
          else (some p, none)) y.path :
        Option String × Option (GoError Nat)).2 = none) ∧
    selected (Entry.mk "r/b.md" false 1) = true ∧
    ((fun p => if p = "r/b.md" then (some p, some (GoError.other 7))
        else (some p, none)) "r/b.md" :
        Option String × Option (GoError Nat)).2 = some (.other 7) ∧
    ((∀ st : WalkState String,
      walkFn (fun p => if p = "r/b.md" then (some p, some (GoError.other 7))
          else (some p, none)) st (visit (Entry.mk "r/b.md" false 1)) =
        .ok (⟨st.posts, st.loaded ++ ["r/b.md"]⟩, some (.other 7))) ∧
    GetPostsInDirectory
      (fun p => if p = "r/b.md" then (some p, some (GoError.other 7)) else (some p, none))
      ((([Entry.mk "r" true 0, Entry.mk "r/a.md" false 1] : List Entry) ++
        Entry.mk "r/b.md" false 1 :: [Entry.mk "r/c.md" false 1]).map visit) =
      .ok ⟨postsOf
          (fun p => if p = "r/b.md" then (some p, some (GoError.other 7)) else (some p, none))
          [Entry.mk "r" true 0, Entry.mk "r/a.md" false 1], some (.other 7),
        pathsOf ([Entry.mk "r" true 0, Entry.mk "r/a.md" false 1] : List Entry) ++ ["r/b.md"]⟩) :=
  ⟨by decide, by decide, by decide,
    GetPostsInDirectory_first_error
      (fun p => if p = "r/b.md" then (some p, some (GoError.other 7)) else (some p, none))
      [Entry.mk "r" true 0, Entry.mk "r/a.md" false 1] (Entry.mk "r/b.md" false 1)
      [Entry.mk "r/c.md" false 1] 7
      (by decide) (by decide) (by decide)⟩

/-- C4, as stated, fails: on the walk `r`, `r/a.md`, `r/b.md` with a loader that fails
on `r/b.md`, the error is returned together with the post of `r/a.md`, not an empty
list. -/
theorem GetPostsInDirectory_error_keeps_posts :
    GetPostsInDirectory
      (fun p => if p = "r/b.md" then (none, some (GoError.other 7)) else (some p, none))
      ([Entry.mk "r" true 0, Entry.mk "r/a.md" false 1, Entry.mk "r/b.md" false 1].map visit) =
      .ok ⟨["r/a.md"], some (.other 7), ["r/a.md", "r/b.md"]⟩ ∧
    (["r/a.md"] : List String) ≠ [] := by
  decide

/-- C4, amended: whenever `GetPostsInDirectory` returns a non-nil error `e` on a walk
given by its visited entries, a selected entry on which the loader returns `e` splits
the walk, and the post list returned with the error is exactly the posts loaded before
that entry, in walk order: the list `GetPostsInDirectory` returns, with a nil error, on
the walk cut before that entry.  When no load before that entry returned a control
value of the walk, no load failed before it and these are the posts of all the
selected entries before it. -/
theorem GetPostsInDirectory_error_posts {Post Err : Type}
    (NewPostFromPath : String → Option Post × Option (GoError Err))
    (entries : List Entry) (r : Discovery Post (GoError Err)) (e : GoError Err)
    (hr : GetPostsInDirectory NewPostFromPath (entries.map visit) = .ok r)
    (he : r.err = some e) :
    ∃ pre x suf, entries = pre ++ x :: suf ∧
      selected x = true ∧ (NewPostFromPath x.path).2 = some e ∧
      (∃ loaded, GetPostsInDirectory NewPostFromPath (pre.map visit) =
          .ok ⟨r.posts, none, loaded⟩ ∧ r.loaded = loaded ++ [x.path]) ∧
      ((∀ y ∈ pre, selected y = true → (NewPostFromPath y.path).2 ≠ some .SkipDir ∧
          (NewPostFromPath y.path).2 ≠ some .SkipAll) →
        (∀ y ∈ pre, selected y = true → (NewPostFromPath y.path).2 = none) ∧
        r.posts = postsOf NewPostFromPath pre) := by
  unfold GetPostsInDirectory at hr
  cases hw : Walk (walkFn NewPostFromPath) none ⟨[], []⟩ (entries.map visit) with
  | panic => simp [hw] at hr
  | ok res =>
    obtain ⟨stf, err⟩ := res
    simp only [hw, Outcome.ok.injEq] at hr
    subst hr
    simp only at he
    subst he
    obtain ⟨pre, x, suf, st', heq, hx, hxe, hpre, hst⟩ :=
      Walk_error_split NewPostFromPath entries none ⟨[], []⟩ stf e hw
    subst hst
    refine ⟨pre, x, suf, heq, hx, hxe, ⟨st'.loaded, ?_, rfl⟩, fun hctl => ?_⟩
    · simp only [GetPostsInDirectory, hpre]
    · rcases first_failure_split NewPostFromPath pre with
        hall | ⟨p1, z, p2, g, hsplit, hp1, hz, hg⟩
      · have h := Walk_all_loaded NewPostFromPath pre hall ⟨[], []⟩
        rw [h] at hpre
        simp only [Outcome.ok.injEq, Prod.mk.injEq, and_true, List.nil_append] at hpre
        exact ⟨hall, by rw [← hpre]⟩
      · have hzmem : z ∈ pre := by rw [hsplit]; simp
        obtain ⟨hd, ha⟩ := hctl z hzmem hz
        cases g with
        | SkipDir => exact absurd hg hd
        | SkipAll => exact absurd hg ha
        | other e' =>
          have h := Walk_first_failure NewPostFromPath p1 z p2 e' hp1 hz hg ⟨[], []⟩
          rw [hsplit, h] at hpre
          simp at hpre

/-- C4, amended, at the walk `r`, `r/a.md`, `r/b.md` whose loader fails on `r/b.md`. -/
theorem GetPostsInDirectory_error_posts_witness :
    GetPostsInDirectory
      (fun p => if p = "r/b.md" then (none, some (GoError.other 7)) else (some p, none))
      (([Entry.mk "r" true 0, Entry.mk "r/a.md" false 1, Entry.mk "r/b.md" false 1] :
        List Entry).map visit) =
      .ok ⟨["r/a.md"], some (.other 7), ["r/a.md", "r/b.md"]⟩ ∧
    (⟨["r/a.md"], some (.other 7), ["r/a.md", "r/b.md"]⟩ :
      Discovery String (GoError Nat)).err = some (.other 7) ∧
    ∃ pre x suf,
      ([Entry.mk "r" true 0, Entry.mk "r/a.md" false 1, Entry.mk "r/b.md" false 1] : List Entry) =
        pre ++ x :: suf ∧
      selected x = true ∧
      ((fun p => if p = "r/b.md" then (none, some (GoError.other 7))
          else (some p, none)) x.path :
          Option String × Option (GoError Nat)).2 = some (.other 7) ∧
      (∃ loaded, GetPostsInDirectory
          (fun p => if p = "r/b.md" then (none, some (GoError.other 7)) else (some p, none))
          (pre.map visit) =
          .ok ⟨(⟨["r/a.md"], some (.other 7), ["r/a.md", "r/b.md"]⟩ :
            Discovery String (GoError Nat)).posts, none, loaded⟩ ∧
        (⟨["r/a.md"], some (.other 7), ["r/a.md", "r/b.md"]⟩ :
          Discovery String (GoError Nat)).loaded = loaded ++ [x.path]) ∧
      ((∀ y ∈ pre, selected y = true →
          ((fun p => if p = "r/b.md" then (none, some (GoError.other 7))
              else (some p, none)) y.path :
            Option String × Option (GoError Nat)).2 ≠ some .SkipDir ∧
          ((fun p => if p = "r/b.md" then (none, some (GoError.other 7))
              else (some p, none)) y.path :
            Option String × Option (GoError Nat)).2 ≠ some .SkipAll) →
        (∀ y ∈ pre, selected y = true →
          ((fun p => if p = "r/b.md" then (none, some (GoError.other 7))
              else (some p, none)) y.path :
            Option String × Option (GoError Nat)).2 = none) ∧
        (⟨["r/a.md"], some (.other 7), ["r/a.md", "r/b.md"]⟩ :
          Discovery String (GoError Nat)).posts =
          postsOf
            (fun p => if p = "r/b.md" then (none, some (GoError.other 7)) else (some p, none))
            pre) :=
  ⟨by decide, rfl,
    GetPostsInDirectory_error_posts
      (fun p => if p = "r/b.md" then (none, some (GoError.other 7)) else (some p, none))
      [Entry.mk "r" true 0, Entry.mk "r/a.md" false 1, Entry.mk "r/b.md" false 1]
      ⟨["r/a.md"], some (.other 7), ["r/a.md", "r/b.md"]⟩ (.other 7) (by decide) rfl⟩

/-- C5: when the loader returns `(nil, nil)` on a selected entry, the callback returns
nil on it and appends nothing, the walk goes on, and, no load failing on the other
entries, `GetPostsInDirectory` returns a nil error with the posts of the other
selected entries in walk order — the posts of the walk without that entry. -/
theorem GetPostsInDirectory_nil_nil_skipped {Post Err : Type}
    (NewPostFromPath : String → Option Post × Option (GoError Err))
    (pre : List Entry) (x : Entry) (suf : List Entry)
    (hx : selected x = true) (hnil : NewPostFromPath x.path = (none, none))
    (hothers : ∀ y ∈ pre ++ suf, selected y = true → (NewPostFromPath y.path).2 = none) :
    (∀ st : WalkState Post, walkFn NewPostFromPath st (visit x) =
      .ok (⟨st.posts, st.loaded ++ [x.path]⟩, none)) ∧
    GetPostsInDirectory NewPostFromPath ((pre ++ x :: suf).map visit) =
      .ok ⟨postsOf NewPostFromPath pre ++ postsOf NewPostFromPath suf, none,
        pathsOf pre ++ x.path :: pathsOf suf⟩ ∧
    GetPostsInDirectory NewPostFromPath ((pre ++ suf).map visit) =
      .ok ⟨postsOf NewPostFromPath pre ++ postsOf NewPostFromPath suf, none,
        pathsOf pre ++ pathsOf suf⟩ := by
  have hx2 : (NewPostFromPath x.path).2 = none := by rw [hnil]
  have hx1 : (NewPostFromPath x.path).1 = none := by rw [hnil]
  refine ⟨fun st => ?_, ?_, ?_⟩
  · have h := walkFn_load NewPostFromPath st x hx hx2
    simpa [hx1] using h
  · have hall : ∀ y ∈ pre ++ x :: suf, selected y = true →
        (NewPostFromPath y.path).2 = none := by
      intro y hy
      rcases List.mem_append.1 hy with hp | hs
      · exact hothers y (List.mem_append_left _ hp)
      · rcases List.mem_cons.1 hs with rfl | hs
        · exact fun _ => hx2
        · exact hothers y (List.mem_append_right _ hs)
    have h := Walk_all_loaded NewPostFromPath (pre ++ x :: suf) hall ⟨[], []⟩
    simp only [GetPostsInDirectory, h, List.nil_append, postsOf_append, pathsOf_append]
    simp [postsOf, pathsOf, hx, hx1, List.filter_cons]
  · have h := Walk_all_loaded NewPostFromPath (pre ++ suf) hothers ⟨[], []⟩
    simp only [GetPostsInDirectory, h, List.nil_append, postsOf_append, pathsOf_append]

/-- C5 at the walk `r/a.md`, `r/n.md`, `r/c.md` whose loader returns `(nil, nil)` on
`r/n.md`. -/
theorem GetPostsInDirectory_nil_nil_skipped_witness :
    selected (Entry.mk "r/n.md" false 1) = true ∧
    (fun p => if p = "r/n.md" then (none, (none : Option (GoError Nat))) else (some p, none))
      "r/n.md" = (none, none) ∧
    (∀ y ∈ ([Entry.mk "r/a.md" false 1] : List Entry) ++ [Entry.mk "r/c.md" false 1],
      selected y = true →
      ((fun p => if p = "r/n.md" then (none, none) else (some p, none)) y.path :
        Option String × Option (GoError Nat)).2 = none) ∧
    ((∀ st : WalkState String,
      walkFn (fun p => if p = "r/n.md" then (none, (none : Option (GoError Nat)))
          else (some p, none)) st (visit (Entry.mk "r/n.md" false 1)) =
        .ok (⟨st.posts, st.loaded ++ ["r/n.md"]⟩, none)) ∧
    GetPostsInDirectory
      (fun p => if p = "r/n.md" then (none, (none : Option (GoError Nat))) else (some p, none))
      ((([Entry.mk "r/a.md" false 1] : List Entry) ++ Entry.mk "r/n.md" false 1 ::
        [Entry.mk "r/c.md" false 1]).map visit) =
      .ok ⟨postsOf
          (fun p => if p = "r/n.md" then (none, (none : Option (GoError Nat)))
            else (some p, none)) [Entry.mk "r/a.md" false 1] ++
        postsOf
          (fun p => if p = "r/n.md" then (none, (none : Option (GoError Nat)))
            else (some p, none)) [Entry.mk "r/c.md" false 1], none,
        pathsOf ([Entry.mk "r/a.md" false 1] : List Entry) ++
          "r/n.md" :: pathsOf [Entry.mk "r/c.md" false 1]⟩ ∧
    GetPostsInDirectory
      (fun p => if p = "r/n.md" then (none, (none : Option (GoError Nat))) else (some p, none))
      ((([Entry.mk "r/a.md" false 1] : List Entry) ++ [Entry.mk "r/c.md" false 1]).map visit) =
      .ok ⟨postsOf
          (fun p => if p = "r/n.md" then (none, (none : Option (GoError Nat)))
            else (some p, none)) [Entry.mk "r/a.md" false 1] ++
        postsOf
          (fun p => if p = "r/n.md" then (none, (none : Option (GoError Nat)))
            else (some p, none)) [Entry.mk "r/c.md" false 1], none,
        pathsOf ([Entry.mk "r/a.md" false 1] : List Entry) ++ pathsOf [Entry.mk "r/c.md" false 1]⟩) :=
  ⟨by decide, by decide, by decide,
    GetPostsInDirectory_nil_nil_skipped
      (fun p => if p = "r/n.md" then (none, (none : Option (GoError Nat))) else (some p, none))
      [Entry.mk "r/a.md" false 1] (Entry.mk "r/n.md" false 1) [Entry.mk "r/c.md" false 1]
      (by decide) (by decide) (by decide)⟩

/-- C6, evaluated on the code: the callback never reads its `err` argument.  Called
with a file system error and no file info (a root that does not exist) it faults on
`info.IsDir()`, and so does `GetPostsInDirectory`; called with an error and the info
of a directory (one that cannot be read) it returns nil, and `GetPostsInDirectory`
returns a nil error. -/
theorem GetPostsInDirectory_walk_error_lost {Post Err : Type}
    (NewPostFromPath : String → Option Post × Option (GoError Err)) (file : String)
    (e : GoError Err) (depth : Nat) :
    (∀ st : WalkState Post,
      walkFn NewPostFromPath st ⟨file, none, some e, depth⟩ = .panic) ∧
    GetPostsInDirectory NewPostFromPath [⟨file, none, some e, depth⟩] = .panic ∧
    (∀ st : WalkState Post,
      walkFn NewPostFromPath st ⟨file, some ⟨true⟩, some e, depth⟩ = .ok (st, none)) ∧
    GetPostsInDirectory NewPostFromPath [⟨file, some ⟨true⟩, some e, depth⟩] =
      .ok ⟨[], none, []⟩ := by
  refine ⟨fun st => rfl, ?_, fun st => ?_, ?_⟩ <;>
    simp [GetPostsInDirectory, Walk, walkFn, skipped]

/-! ## Root prefix and separators -/

/-- C8, as stated, fails: with backslash or mixed separators the result differs from
the one for forward slashes. -/
theorem getRootPath_backslash_differs :
    getRootPath "sub\\deep\\c.md" = "" ∧ getRootPath "sub\\deep/c.md" = "../" ∧
    getRootPath "sub/deep/c.md" = "../../" ∧
    getRootPath "sub\\deep\\c.md" ≠ getRootPath "sub/deep/c.md" ∧
    getRootPath "sub\\deep/c.md" ≠ getRootPath "sub/deep/c.md" := by
  decide

/-- C8, amended: `getRootPath` counts forward slashes only.  A backslash anywhere in
the path contributes nothing, and replacing one `/` of a path by `\` removes exactly
one `../` from the result. -/
theorem getRootPath_backslash_not_counted (a b : String) :
    getRootPath (a ++ "\\" ++ b) = getRootPath (a ++ b) ∧
    getRootPath (a ++ "/" ++ b) = "../" ++ getRootPath (a ++ "\\" ++ b) := by
  have hb : ("\\" : String).data = ['\\'] := rfl
  have hs : ("/" : String).data = ['/'] := rfl
  have hne : ¬ ('\\' = '/') := by decide
  have h1 : Count (a ++ "\\" ++ b) "/" = Count (a ++ b) "/" := by
    simp [Count_slash, String.data_append, hb, List.count_cons, hne]
  have h2 : Count (a ++ "/" ++ b) "/" = Count (a ++ b) "/" + 1 := by
    simp [Count_slash, String.data_append, hs, List.count_cons]
    omega
  refine ⟨?_, ?_⟩
  · simp only [getRootPath, h1]
  · simp only [getRootPath, h1, h2, Repeat]

/-! ## The driver -/

theorem main_of_reachesPipeline {Post Err Tree Index : Type} (e : Env Post (GoError Err) Tree Index)
    (h : reachesPipeline e) :
    (main e).ending = (pipeline e).ending ∧
    ((main e).calls = (pipeline e).calls ∨
      (main e).calls = .StartBlogServer e.flagSource :: (pipeline e).calls) := by
  obtain ⟨ha, hs, hd | hd⟩ := h
  · simp [main, ha, hs, hd.1, hd.2]
  · simp [main, ha, hs, hd.1, hd.2]

/-- Either `main` ends before the pipeline, with no pipeline call made, or it reaches
the pipeline. -/
theorem main_cases {Post Err Tree Index : Type} (e : Env Post (GoError Err) Tree Index) :
    reachesPipeline e ∨
    (∀ c ∈ (main e).calls, c = .usage ∨ (∃ m, c = .stderr m none) ∨
      (∃ m err, c = .stderr m (some err)) ∨ c = .StartBlogServer e.flagSource) := by
  unfold reachesPipeline
  by_cases ha : e.args.length = 1
  · by_cases hs : e.flagSource = ""
    · right; simp [main, ha, hs]
    · cases hr : e.RunAsServer with
      | false =>
        by_cases hd : e.flagDest = ""
        · right; simp [main, ha, hs, hr, hd]
        · left; simp [ha, hs, hd]
      | true =>
        rcases hsv : e.StartBlogServer e.flagSource with _ | (_ | err)
        · right; simp [main, ha, hs, hr, hsv]
        · left; simp [ha, hs]
        · right; simp [main, ha, hs, hr, hsv]
  · right; simp [main, ha]

/-- The pipeline after a failed discovery or a failed tree construction. -/
theorem pipeline_failed_early {Post Err Tree Index : Type} (e : Env Post (GoError Err) Tree Index)
    (r : Discovery Post (GoError Err))
    (hr : GetPostsInDirectory e.NewPostFromPath (e.visits e.flagSource) = .ok r)
    (hfail : r.err ≠ none ∨ (e.createRenderTree r.posts).2 ≠ none) :
    (pipeline e).ending = .exit 3 ∧ (∀ c ∈ (pipeline e).calls, c.isOutput = false) ∧
    ∃ msg err, Call.stderr msg (some err) ∈ (pipeline e).calls := by
  obtain ⟨posts, err, loaded⟩ := r
  cases err with
  | some err =>
    simp only [pipeline, hr]
    exact ⟨trivial, by simp [Call.isOutput], "GetPostsInDirectory: ", err, by simp⟩
  | none =>
    have ht : (e.createRenderTree posts).2 ≠ none := by simpa using hfail
    rcases hc : e.createRenderTree posts with ⟨tree, terr⟩
    rw [hc] at ht
    cases terr with
    | none => exact absurd rfl ht
    | some terr =>
      simp only [pipeline, hr, hc]
      exact ⟨trivial, by simp [Call.isOutput], "createRenderTree: ", terr, by simp⟩

/-- The only tree the pipeline writes is the one built from the discovered posts. -/
theorem pipeline_writes_built_tree {Post Err Tree Index : Type}
    (e : Env Post (GoError Err) Tree Index) (dest : String) (tree : Tree)
    (h : Call.writeRenderTree dest tree ∈ (pipeline e).calls) :
    dest = e.flagDest ∧ ∃ r, GetPostsInDirectory e.NewPostFromPath (e.visits e.flagSource) = .ok r ∧
      r.err = none ∧ e.createRenderTree r.posts = (tree, none) := by
  unfold pipeline at h
  split at h
  · simp at h
  · simp at h
  · next posts loaded hg =>
    split at h
    · simp at h
    · next renderTree hc =>
      have key : dest = e.flagDest ∧ tree = renderTree := by
        split at h
        · simpa using h
        · split at h
          · simpa using h
          · split at h <;> simpa using h
      obtain ⟨hd, ht⟩ := key
      subst ht
      exact ⟨hd, ⟨posts, none, loaded⟩, hg, rfl, hc⟩

/-- The pipeline when one of its stages fails, whichever it is. -/
theorem pipeline_failed_stage {Post Err Tree Index : Type} (e : Env Post (GoError Err) Tree Index)
    (r : Discovery Post (GoError Err))
    (hr : GetPostsInDirectory e.NewPostFromPath (e.visits e.flagSource) = .ok r)
    (hfail : r.err ≠ none ∨ (e.createRenderTree r.posts).2 ≠ none ∨
      e.writeRenderTree e.flagDest (e.createRenderTree r.posts).1 ≠ none ∨
      (e.CreateIndex r.posts).2 ≠ none ∨
      e.osCreate (pathJoin e.flagDest "index.html") ≠ none) :
    (pipeline e).ending = .exit 3 := by
  obtain ⟨posts, err, loaded⟩ := r
  cases err with
  | some err => simp only [pipeline, hr]
  | none =>
    rcases hc : e.createRenderTree posts with ⟨tree, terr⟩
    cases terr with
    | some terr => simp only [pipeline, hr, hc]
    | none =>
      cases hw : e.writeRenderTree e.flagDest tree with
      | some werr => simp only [pipeline, hr, hc, hw]
      | none =>
        rcases hi : e.CreateIndex posts with ⟨index, ierr⟩
        cases ierr with
        | some ierr => simp only [pipeline, hr, hc, hw, hi]
        | none =>
          cases ho : e.osCreate (pathJoin e.flagDest "index.html") with
          | some oerr => simp only [pipeline, hr, hc, hw, hi, ho]
          | none => simp [hc, hw, hi, ho] at hfail

/-- C9: when `main` has called `GetPostsInDirectory` and it, or `createRenderTree` on
its posts, returns an error, `main` reports the error and exits with code 3 without
calling `writeRenderTree`, `CreateIndex` or the creation of `index.html`; and every
call of `writeRenderTree` has the tree that `createRenderTree` returned without error
on the posts that `GetPostsInDirectory` returned without error. -/
theorem main_fails_before_output {Post Err Tree Index : Type}
    (e : Env Post (GoError Err) Tree Index) :
    (∀ r, GetPostsInDirectory e.NewPostFromPath (e.visits e.flagSource) = .ok r →
      Call.GetPostsInDirectory e.flagSource ∈ (main e).calls →
      (r.err ≠ none ∨ (e.createRenderTree r.posts).2 ≠ none) →
      (main e).ending = .exit 3 ∧ (∀ c ∈ (main e).calls, c.isOutput = false) ∧
        ∃ msg err, Call.stderr msg (some err) ∈ (main e).calls) ∧
    (∀ dest tree, Call.writeRenderTree dest tree ∈ (main e).calls →
      dest = e.flagDest ∧
      ∃ r, GetPostsInDirectory e.NewPostFromPath (e.visits e.flagSource) = .ok r ∧
        r.err = none ∧ e.createRenderTree r.posts = (tree, none)) := by
  rcases main_cases e with hreach | hearly
  · obtain ⟨hend, hcalls⟩ := main_of_reachesPipeline e hreach
    refine ⟨fun r hr _ hfail => ?_, fun dest tree hw => ?_⟩
    · obtain ⟨h3, hout, msg, err, hmsg⟩ := pipeline_failed_early e r hr hfail
      refine ⟨hend.trans h3, ?_, msg, err, ?_⟩
      · rcases hcalls with hc | hc <;> rw [hc]
        · exact hout
        · intro c hcmem
          rcases List.mem_cons.1 hcmem with rfl | hcmem
          · rfl
          · exact hout c hcmem
      · rcases hcalls with hc | hc <;> rw [hc]
        · exact hmsg
        · exact List.mem_cons_of_mem _ hmsg
    · apply pipeline_writes_built_tree e dest tree
      rcases hcalls with hc | hc <;> rw [hc] at hw
      · exact hw
      · simpa using hw
  · refine ⟨fun r _ hcall _ => ?_, fun dest tree hw => ?_⟩
    · rcases hearly _ hcall with h | ⟨m, h⟩ | ⟨m, err, h⟩ | h <;> cases h
    · rcases hearly _ hw with h | ⟨m, h⟩ | ⟨m, err, h⟩ | h <;> cases h

/-- C9 at a run whose loader fails on `blog/a.md`, and at a run that succeeds. -/
theorem main_fails_before_output_witness :
    GetPostsInDirectory (fun _ => ((none : Option String), some (.other 5)))
        (sampleEnv.visits sampleEnv.flagSource) = .ok ⟨[], some (.other 5), ["blog/a.md"]⟩ ∧
    Call.GetPostsInDirectory "blog" ∈
      (main { sampleEnv with NewPostFromPath := fun _ => (none, some (.other 5)) }).calls ∧
    ((main { sampleEnv with NewPostFromPath := fun _ => (none, some (.other 5)) }).ending = .exit 3 ∧
      (∀ c ∈ (main { sampleEnv with NewPostFromPath := fun _ => (none, some (.other 5)) }).calls,
        c.isOutput = false) ∧
      ∃ msg err, Call.stderr msg (some err) ∈
        (main { sampleEnv with NewPostFromPath := fun _ => (none, some (.other 5)) }).calls) ∧
    Call.writeRenderTree "out" "blog/a.md" ∈ (main sampleEnv).calls ∧
    ("out" = sampleEnv.flagDest ∧
      ∃ r, GetPostsInDirectory sampleEnv.NewPostFromPath
          (sampleEnv.visits sampleEnv.flagSource) = .ok r ∧
        r.err = none ∧ sampleEnv.createRenderTree r.posts = ("blog/a.md", none)) :=
  ⟨by decide, by decide,
    (main_fails_before_output { sampleEnv with NewPostFromPath := fun _ => (none, some (.other 5)) }).1
      ⟨[], some (.other 5), ["blog/a.md"]⟩ (by decide) (by decide) (Or.inl (by decide)),
    by decide,
    (main_fails_before_output sampleEnv).2 "out" "blog/a.md" (by decide)⟩

/-- C10, as stated, fails: a bad invocation and a missing `-root` both exit with
code 1, and a server start-up failure and a pipeline failure both exit with code 3. -/
theorem main_exit_codes_shared :
    (main { sampleEnv with args := [] }).ending = .exit 1 ∧
    (main { sampleEnv with flagSource := "" }).ending = .exit 1 ∧
    (main { sampleEnv with
      RunAsServer := true, StartBlogServer := fun _ => .returned (some (.other 9)) }).ending = .exit 3 ∧
    (main { sampleEnv with NewPostFromPath := fun _ => (none, some (.other 5)) }).ending = .exit 3 := by
  decide

/-- C10, amended: `main` exits with code 1 on an argument count other than one and on
a missing `-root`, with code 2 on a missing `-dest` outside server mode, and with code
3 when `StartBlogServer` returns an error and when a pipeline stage returns an error
(`GetPostsInDirectory`, `createRenderTree`, `writeRenderTree`, `CreateIndex`, `os.Create`
of `index.html`). -/
theorem main_exit_codes {Post Err Tree Index : Type} (e : Env Post (GoError Err) Tree Index) :
    (e.args.length ≠ 1 → (main e).ending = .exit 1) ∧
    (e.args.length = 1 → e.flagSource = "" → (main e).ending = .exit 1) ∧
    (e.args.length = 1 → e.flagSource ≠ "" → e.RunAsServer = false → e.flagDest = "" →
      (main e).ending = .exit 2) ∧
    (e.args.length = 1 → e.flagSource ≠ "" → e.RunAsServer = true →
      ∀ err, e.StartBlogServer e.flagSource = .returned (some err) →
        (main e).ending = .exit 3) ∧
    (reachesPipeline e →
      ∀ r, GetPostsInDirectory e.NewPostFromPath (e.visits e.flagSource) = .ok r →
        (r.err ≠ none ∨ (e.createRenderTree r.posts).2 ≠ none ∨
          e.writeRenderTree e.flagDest (e.createRenderTree r.posts).1 ≠ none ∨
          (e.CreateIndex r.posts).2 ≠ none ∨
          e.osCreate (pathJoin e.flagDest "index.html") ≠ none) →
        (main e).ending = .exit 3) := by
  refine ⟨fun ha => ?_, fun ha hs => ?_, fun ha hs hr hd => ?_, fun ha hs hr err hsv => ?_,
    fun hreach r hr hfail => ?_⟩
  · simp [main, ha]
  · simp [main, ha, hs]
  · simp [main, ha, hs, hr, hd]
  · simp [main, ha, hs, hr, hsv]
  · exact (main_of_reachesPipeline e hreach).1.trans (pipeline_failed_stage e r hr hfail)

/-- C10, amended, at one run per failure class. -/
theorem main_exit_codes_witness :
    (main { sampleEnv with args := ["render", "now"] }).ending = .exit 1 ∧
    (main { sampleEnv with flagSource := "" }).ending = .exit 1 ∧
    (main { sampleEnv with flagDest := "" }).ending = .exit 2 ∧
    (main { sampleEnv with
      RunAsServer := true, StartBlogServer := fun _ => .returned (some (.other 9)) }).ending = .exit 3 ∧
    (main { sampleEnv with writeRenderTree := fun _ _ => some (.other 4) }).ending = .exit 3 :=
  ⟨(main_exit_codes { sampleEnv with args := ["render", "now"] }).1 (by decide),
    (main_exit_codes { sampleEnv with flagSource := "" }).2.1 (by decide) (by decide),
    (main_exit_codes { sampleEnv with flagDest := "" }).2.2.1
      (by decide) (by decide) (by decide) (by decide),
    (main_exit_codes { sampleEnv with
      RunAsServer := true, StartBlogServer := fun _ => .returned (some (.other 9)) }).2.2.2.1
      (by decide) (by decide) (by decide) (.other 9) (by decide),
    (main_exit_codes { sampleEnv with writeRenderTree := fun _ _ => some (.other 4) }).2.2.2.2
      ⟨by decide, by decide, Or.inl ⟨by decide, by decide⟩⟩
      ⟨["blog/a.md"], none, ["blog/a.md"]⟩ (by decide)
      (Or.inr (Or.inr (Or.inl (by decide))))⟩

/-! ## Resolving the root prefix -/

theorem pushElem_plain (rooted : Bool) (stack : List (List Char)) (elem : List Char)
    (h : plainElem elem) : pushElem rooted stack elem = elem :: stack := by
  obtain ⟨h1, _, h3, h4⟩ := h
  simp [pushElem, h1, h3, h4]

theorem pushElem_dotdot (rooted : Bool) (stack : List (List Char)) (elem : List Char)
    (h : plainElem elem) : pushElem rooted (elem :: stack) ['.', '.'] = stack := by
  obtain ⟨_, _, _, h4⟩ := h
  simp [pushElem, h4]

theorem cleanScan_elem (rooted : Bool) (stack : List (List Char)) (cur elem rest : List Char)
    (h : '/' ∉ elem) :
    cleanScan rooted stack cur (elem ++ '/' :: rest) =
      cleanScan rooted (pushElem rooted stack (cur.reverse ++ elem)) [] rest := by
  induction elem generalizing cur with
  | nil => simp [cleanScan]
  | cons c cs ih =>
    have hc : c ≠ '/' := fun e => h (by simp [e])
    have hcs : '/' ∉ cs := fun m => h (List.mem_cons_of_mem _ m)
    simp [cleanScan, hc, ih (c :: cur) hcs]

theorem cleanScan_dirChars (rooted : Bool) (elems : List (List Char)) (rest : List Char)
    (h : ∀ el ∈ elems, plainElem el) (stack : List (List Char)) :
    cleanScan rooted stack [] (dirChars elems ++ rest) =
      cleanScan rooted (elems.reverse ++ stack) [] rest := by
  induction elems generalizing stack with
  | nil => simp [dirChars]
  | cons el els ih =>
    have hel := h el (List.mem_cons_self _ _)
    have hels : ∀ x ∈ els, plainElem x := fun x hx => h x (List.mem_cons_of_mem _ hx)
    have hd : dirChars (el :: els) ++ rest = el ++ '/' :: (dirChars els ++ rest) := by
      simp [dirChars]
    rw [hd, cleanScan_elem rooted stack [] el _ hel.2.1]
    simp [pushElem_plain rooted stack el hel, ih hels]

theorem Repeat_data_succ (s : String) (n : Nat) :
    (Repeat s (n + 1)).data = s.data ++ (Repeat s n).data := by
  simp [Repeat, String.data_append]

theorem cleanScan_dotdots (rooted : Bool) (top : List (List Char)) (rest : List Char)
    (h : ∀ el ∈ top, plainElem el) (stack : List (List Char)) :
    cleanScan rooted (top ++ stack) [] ((Repeat "../" top.length).data ++ rest) =
      cleanScan rooted stack [] rest := by
  induction top with
  | nil => simp [Repeat]
  | cons el els ih =>
    have hel := h el (List.mem_cons_self _ _)
    have hels : ∀ x ∈ els, plainElem x := fun x hx => h x (List.mem_cons_of_mem _ hx)
    have hd : ("../" : String).data = ['.', '.'] ++ ['/'] := rfl
    have hs : ¬ ('/' ∈ ['.', '.']) := by decide
    rw [List.length_cons, Repeat_data_succ, hd, List.append_assoc, List.append_assoc,
      List.singleton_append, cleanScan_elem rooted _ [] ['.', '.'] _ hs]
    simp only [List.reverse_nil, List.nil_append, List.cons_append]
    rw [pushElem_dotdot rooted _ el hel]
    exact ih hels

theorem joinSlash_data (init : List String) (last : String) :
    (joinSlash (init ++ [last])).data = dirChars (init.map String.data) ++ last.data := by
  induction init with
  | nil => simp [joinSlash, dirChars]
  | cons s rest ih =>
    cases rest with
    | nil => simp [joinSlash, dirChars, String.data_append]
    | cons t rest =>
      have hj : joinSlash (s :: t :: rest ++ [last]) =
          s ++ "/" ++ joinSlash (t :: rest ++ [last]) := rfl
      have hs : ("/" : String).data = ['/'] := rfl
      rw [hj, String.data_append, String.data_append, ih, hs]
      simp [dirChars]

theorem count_dirChars (elems : List (List Char)) (h : ∀ el ∈ elems, '/' ∉ el) :
    (dirChars elems).count '/' = elems.length := by
  induction elems with
  | nil => rfl
  | cons el els ih =>
    have hel : el.count '/' = 0 := List.count_eq_zero_of_not_mem (h el (List.mem_cons_self _ _))
    have hels : ∀ x ∈ els, '/' ∉ x := fun x hx => h x (List.mem_cons_of_mem _ hx)
    have hd : dirChars (el :: els) = el ++ '/' :: dirChars els := by simp [dirChars]
    rw [hd, List.count_append, List.count_cons_self, hel, ih hels, List.length_cons]
    omega

theorem LastIndexByte_absent (l : List Char) (c : Char) (h : c ∉ l) :
    LastIndexByte l c = -1 := by
  induction l with
  | nil => rfl
  | cons x xs ih =>
    have hx : x ≠ c := fun e => h (by simp [e])
    have hxs : c ∉ xs := fun m => h (List.mem_cons_of_mem _ m)
    simp [LastIndexByte, ih hxs, hx]

theorem LastIndexByte_last (a b : List Char) (c : Char) (h : c ∉ b) :
    LastIndexByte (a ++ c :: b) c = a.length := by
  induction a with
  | nil => simp [LastIndexByte, LastIndexByte_absent b c h]
  | cons x xs ih =>
    simp only [List.cons_append, LastIndexByte, ih, List.length_cons]
    simp
    omega

/-- The directory part of a path made of elements without slashes. -/
theorem Split_dirChars (elems : List (List Char)) (last : List Char) (h : '/' ∉ last) :
    (Split ⟨dirChars elems ++ last⟩).1 = ⟨dirChars elems⟩ := by
  rcases List.eq_nil_or_concat elems with rfl | ⟨init, el, hcat⟩
  · simp [Split, dirChars, LastIndexByte_absent last '/' h]
  · rw [List.concat_eq_append] at hcat
    subst hcat
    have hd : dirChars (init ++ [el]) ++ last = (dirChars init ++ el) ++ '/' :: last := by
      simp [dirChars]
    have hd2 : dirChars (init ++ [el]) = (dirChars init ++ el) ++ ['/'] := by
      simp [dirChars]
    have hi : LastIndexByte (dirChars (init ++ [el]) ++ last) '/' =
        ((dirChars init ++ el).length : Int) := by
      rw [hd, LastIndexByte_last _ last '/' h]
    have hn : ((((dirChars init ++ el).length : Int) + 1).toNat) =
        (dirChars init ++ el).length + 1 := by omega
    apply String.ext
    simp only [Split, hi, hn]
    rw [hd, hd2]
    have hlen : (dirChars init ++ el).length + 1 = (dirChars init ++ el ++ ['/']).length := by
      simp only [List.length_append, List.length_singleton]
    rw [hlen]
    have hre : dirChars init ++ el ++ '/' :: last = (dirChars init ++ el ++ ['/']) ++ last := by
      simp
    rw [hre, List.take_left]

theorem Clean_congr (p q : String) (hp : p.data.head? ≠ some '/')
    (hq : q.data.head? ≠ some '/')
    (h : cleanScan false [] [] p.data = cleanScan false [] [] q.data) : Clean p = Clean q := by
  simp [Clean, hp, hq, h]

theorem head_dirChars (elems : List (List Char)) (rest : List Char)
    (h : ∀ el ∈ elems, plainElem el) (hrest : rest.head? ≠ some '/') :
    (dirChars elems ++ rest).head? ≠ some '/' := by
  cases elems with
  | nil => simpa [dirChars] using hrest
  | cons el els =>
    obtain ⟨hne, hns, _, _⟩ := h el (List.mem_cons_self _ _)
    cases el with
    | nil => exact absurd rfl hne
    | cons c cs =>
      have hc : c ≠ '/' := fun e => hns (by simp [e])
      simp [dirChars, hc]

/-- The directory part of a clean relative path followed by its root prefix and a
relative link scans like the link alone. -/
theorem cleanScan_dir_root (elems : List (List Char)) (link : List Char)
    (h : ∀ el ∈ elems, plainElem el) :
    cleanScan false [] [] (dirChars elems ++ ((Repeat "../" elems.length).data ++ link)) =
      cleanScan false [] [] link := by
  rw [cleanScan_dirChars false elems _ h []]
  have hlen : elems.length = elems.reverse.length := by simp
  rw [hlen]
  exact cleanScan_dotdots false elems.reverse link (fun el hel => h el (List.mem_reverse.1 hel)) []

/-- C7: for a clean relative path `name` (one or more elements joined by `/`, each
non-empty, without a slash, and neither `.` nor `..`), the directory part of `name`
followed by `getRootPath name` normalises to the root `.`, and followed further by a
relative link it normalises to what the link alone normalises to. -/
theorem getRootPath_resolves_to_root (segs : List String) (link : String)
    (hne : segs ≠ [])
    (hseg : ∀ s ∈ segs, s ≠ "" ∧ '/' ∉ s.data ∧ s ≠ "." ∧ s ≠ "..")
    (hlink : link.data.head? ≠ some '/') :
    Clean ((Split (joinSlash segs)).1 ++ getRootPath (joinSlash segs)) = "." ∧
    Clean ((Split (joinSlash segs)).1 ++ getRootPath (joinSlash segs) ++ link) =
      Clean link := by
  rcases List.eq_nil_or_concat segs with rfl | ⟨init, last, hcat⟩
  · exact absurd rfl hne
  rw [List.concat_eq_append] at hcat
  subst hcat
  have hplain : ∀ el ∈ init.map String.data, plainElem el := by
    intro el hel
    obtain ⟨s, hs, rfl⟩ := List.mem_map.1 hel
    obtain ⟨h1, h2, h3, h4⟩ := hseg s (List.mem_append_left _ hs)
    exact ⟨fun e => h1 (String.ext e), h2, fun e => h3 (String.ext e),
      fun e => h4 (String.ext e)⟩
  have hlast : '/' ∉ last.data := (hseg last (by simp)).2.1
  have hname : joinSlash (init ++ [last]) = ⟨dirChars (init.map String.data) ++ last.data⟩ :=
    String.ext (joinSlash_data init last)
  have hsplit : (Split (joinSlash (init ++ [last]))).1 = ⟨dirChars (init.map String.data)⟩ := by
    rw [hname]
    exact Split_dirChars _ _ hlast
  have hcount : Count (joinSlash (init ++ [last])) "/" = (init.map String.data).length := by
    rw [Count_slash, joinSlash_data, List.count_append,
      count_dirChars _ (fun el hel => (hplain el hel).2.1),
      List.count_eq_zero_of_not_mem hlast]
    rfl
  have key : ∀ l : String, l.data.head? ≠ some '/' →
      Clean ((Split (joinSlash (init ++ [last]))).1 ++ getRootPath (joinSlash (init ++ [last]))
        ++ l) = Clean l := by
    intro l hl
    have hdata : ((Split (joinSlash (init ++ [last]))).1 ++
        getRootPath (joinSlash (init ++ [last])) ++ l).data =
        dirChars (init.map String.data) ++
          ((Repeat "../" (init.map String.data).length).data ++ l.data) := by
      simp only [String.data_append, hsplit, getRootPath, hcount, List.append_assoc]
    apply Clean_congr _ _ _ hl
    · rw [hdata]
      exact cleanScan_dir_root _ _ hplain
    · rw [hdata]
      apply head_dirChars _ _ hplain
      cases hi : (init.map String.data).length with
      | zero => simpa [Repeat] using hl
      | succ n => simp [Repeat_data_succ]
  refine ⟨?_, key link hlink⟩
  have h := key "" (by decide)
  have he : ∀ t : String, t ++ "" = t := fun t => String.ext (by simp [String.data_append])
  rw [he] at h
  rw [h]
  decide

/-- C7 at `sub/deep/c.md` and the link `static/style.css`. -/
theorem getRootPath_leads_back_witness :
    (["sub", "deep", "c.md"] : List String) ≠ [] ∧
    (∀ s ∈ (["sub", "deep", "c.md"] : List String),
      s ≠ "" ∧ '/' ∉ s.data ∧ s ≠ "." ∧ s ≠ "..") ∧
    ("static/style.css" : String).data.head? ≠ some '/' ∧
    Clean ((Split (joinSlash ["sub", "deep", "c.md"])).1 ++
      getRootPath (joinSlash ["sub", "deep", "c.md"])) = "." ∧
    Clean ((Split (joinSlash ["sub", "deep", "c.md"])).1 ++
      getRootPath (joinSlash ["sub", "deep", "c.md"]) ++ "static/style.css") =
      Clean "static/style.css" :=
  ⟨by decide, by decide, by decide,
    getRootPath_resolves_to_root ["sub", "deep", "c.md"] "static/style.css"
      (by decide) (by decide) (by decide)⟩

end Blackblog
